import Mathlib

/-!
# Verification of the basketball play-tagging metrics core

Shallow embedding of `src/PerformanceMetricsV2.py`: the event-log data model
(`add_log`, the Undo Last handler) and the metrics engine (`compute_metrics`),
with pandas semantics made explicit:

* `DataFrame.groupby("play")` sorts the group keys lexicographically
  (pandas default `sort=True`), so the pre-sort row order is ascending by
  play label;
* `sort_values(by=["PPP", "Attempts"], ascending=[False, False])` on several
  columns is a stable sort (pandas uses `np.lexsort`), modelled here by
  `List.insertionSort`, which is stable;
* float ratios are modelled as exact rationals (`ℚ`), with `a / b` written
  `mkRat a b` (for the denominators that occur — always nonzero — this is
  exactly rational division, see `mkRat_eq_cast_div`);
* Python's string comparison (lexicographic on code points) is modelled by
  the structural comparison `stringLe`.
-/

/-- Lexicographic comparison of character lists by code point: the order
Python uses on the `play` strings when pandas sorts the groupby keys. -/
def charsLe : List Char → List Char → Bool
  | [], _ => true
  | _ :: _, [] => false
  | a :: as, b :: bs =>
    if a.toNat < b.toNat then true
    else if b.toNat < a.toNat then false
    else charsLe as bs

/-- Python's `<=` on strings: lexicographic by code point. -/
def stringLe (a b : String) : Bool := charsLe a.data b.data

/-- The relation form of `stringLe`, for sorting. -/
def strLe (a b : String) : Prop := stringLe a b = true

/-- Strict code-point order on strings. -/
def strLt (a b : String) : Prop := strLe a b ∧ a ≠ b

instance : DecidableRel strLe := fun a b => by
  unfold strLe; infer_instance

/-- One entry of `st.session_state["log"]`: the dict built by `add_log`. -/
structure TaggedEvent where
  timestamp : String
  opponent : String
  game_date : String
  quarter : String
  player : Option String
  play : String
  result : String
  points : Int
deriving Repr, DecidableEq

/-- The parts of `st.session_state` that the log operations touch. -/
structure SessionState where
  opponent : String
  game_date : String
  quarter : String
  selected_player : Option String
  log : List TaggedEvent
deriving Repr, DecidableEq

/-- Source `points_from_result`: dict lookup with default 0
(`{"Made 2": 2, "Made 3": 3, "Missed 2": 0, "Missed 3": 0, "Foul": 0}.get(result, 0)`). -/
def points_from_result (result : String) : Int :=
  if result = "Made 2" then 2
  else if result = "Made 3" then 3
  else if result = "Missed 2" then 0
  else if result = "Missed 3" then 0
  else if result = "Foul" then 0
  else 0

/-- Source `add_log(play, result)`: appends the event dict to the session log.
`now` stands for the value of `datetime.now().strftime(...)` at call time. -/
def add_log (s : SessionState) (now play result : String) : SessionState :=
  { s with
    log := s.log ++ [{
      timestamp := now
      opponent := s.opponent
      game_date := s.game_date
      quarter := s.quarter
      player := s.selected_player
      play := play
      result := result
      points := points_from_result result }] }

/-- Modelled from the spec: `EventLog.append` with the optional
`explicitTimestamp` parameter ("uses `explicitTimestamp` if supplied
(allowing retroactive tagging against a custom time) else current time,
appends to the end"). The variant under `src/` (`add_log`) exposes no
timestamp parameter; this definition models the spec's append signature,
which is otherwise identical to `add_log`. -/
def append_event (s : SessionState) (now play result : String)
    (explicitTimestamp : Option String) : SessionState :=
  { s with
    log := s.log ++ [{
      timestamp := explicitTimestamp.getD now
      opponent := s.opponent
      game_date := s.game_date
      quarter := s.quarter
      player := s.selected_player
      play := play
      result := result
      points := points_from_result result }] }

/-- The "Undo Last" button handler: if the log is non-empty, `log.pop()`
(remove and return the last entry) and toast "Last tag removed.";
otherwise no mutation and toast "No tags to undo.". -/
def undo_last (s : SessionState) : SessionState × Option TaggedEvent × String :=
  if s.log.isEmpty then
    (s, none, "No tags to undo.")
  else
    ({ s with log := s.log.dropLast }, s.log.getLast?, "Last tag removed.")

/-- One row of the metrics table returned by `compute_metrics`. -/
structure PlayMetric where
  play : String
  attempts : Nat
  points : Int
  ppp : ℚ
  frequency : ℚ
  success_rate : ℚ
deriving Repr, DecidableEq

/-- Source `log_df.groupby("play").size()[p]`: number of events of play `p`. -/
def countPlay (log : List TaggedEvent) (p : String) : Nat :=
  (log.filter (fun e => e.play == p)).length

/-- Source `log_df.groupby("play")["points"].sum()[p]`: total points of play `p`. -/
def pointsPlay (log : List TaggedEvent) (p : String) : Int :=
  ((log.filter (fun e => e.play == p)).map (·.points)).sum

/-- Source `log_df[made_mask].groupby("play").size().get(p, 0)` where
`made_mask = result.isin(["Made 2", "Made 3"])`. -/
def madeCount (log : List TaggedEvent) (p : String) : Nat :=
  ((log.filter (fun e => e.result == "Made 2" || e.result == "Made 3")).filter
    (fun e => e.play == p)).length

/-- Source `log_df[att_mask].groupby("play").size().get(p, 0)` where
`att_mask = result.isin(["Made 2", "Made 3", "Missed 2", "Missed 3"])`. -/
def shotCount (log : List TaggedEvent) (p : String) : Nat :=
  ((log.filter (fun e =>
      e.result == "Made 2" || e.result == "Made 3" ||
      e.result == "Missed 2" || e.result == "Missed 3")).filter
    (fun e => e.play == p)).length

/-- The inner `success_rate(play_name)`: `(made / atts) if atts else 0.0`. -/
def success_rate (log : List TaggedEvent) (p : String) : ℚ :=
  if shotCount log p = 0 then 0 else mkRat (madeCount log p) (shotCount log p)

/-- The index of `log_df.groupby("play")`: the distinct play labels in
ascending lexicographic order (pandas groupby sorts keys by default). -/
def groupKeys (log : List TaggedEvent) : List String :=
  List.insertionSort strLe (log.map (·.play)).dedup

/-- Source `metrics["Attempts"].sum()`: the grand total of attempts over all rows. -/
def total_attempts (log : List TaggedEvent) : Nat :=
  ((groupKeys log).map (countPlay log)).sum

/-- One row of the metrics table before the final sort: `Attempts`, `Points`,
`PPP = Points / Attempts`,
`Frequency = Attempts / (total_attempts if total_attempts else 1)`,
`Success Rate` via `success_rate`. -/
def metricRow (log : List TaggedEvent) (p : String) : PlayMetric :=
  { play := p
    attempts := countPlay log p
    points := pointsPlay log p
    ppp := mkRat (pointsPlay log p) (countPlay log p)
    frequency := mkRat (countPlay log p)
      (if total_attempts log = 0 then 1 else total_attempts log)
    success_rate := success_rate log p }

/-- The comparison performed by
`sort_values(by=["PPP", "Attempts"], ascending=[False, False])`:
`a` may come no later than `b`. -/
def rowLe (a b : PlayMetric) : Prop :=
  b.ppp < a.ppp ∨ (a.ppp = b.ppp ∧ (b.attempts < a.attempts ∨ a.attempts = b.attempts))

instance : DecidableRel rowLe := fun a b => by
  unfold rowLe; infer_instance

/-- Source `compute_metrics(log_df)`: empty table on empty input; otherwise one row
per distinct play (in groupby key order), stably sorted descending by PPP
then by Attempts. -/
def compute_metrics (log : List TaggedEvent) : List PlayMetric :=
  if log.isEmpty then []
  else List.insertionSort rowLe ((groupKeys log).map (metricRow log))


/-! ### Order properties of the code-point comparison -/

theorem charsLe_total (a b : List Char) : charsLe a b = true ∨ charsLe b a = true := by
  induction a generalizing b with
  | nil => left; cases b <;> rfl
  | cons x xs ih =>
    cases b with
    | nil => right; rfl
    | cons y ys =>
      rcases Nat.lt_trichotomy x.toNat y.toNat with h | h | h
      · left; simp [charsLe, h]
      · have h1 : ¬ x.toNat < y.toNat := by omega
        have h2 : ¬ y.toNat < x.toNat := by omega
        rcases ih ys with hc | hc
        · left; simp [charsLe, h1, h2, hc]
        · right; simp [charsLe, h1, h2, hc]
      · right; simp [charsLe, h]

theorem charsLe_trans {a b c : List Char} (hab : charsLe a b = true)
    (hbc : charsLe b c = true) : charsLe a c = true := by
  induction a generalizing b c with
  | nil => cases c <;> rfl
  | cons x xs ih =>
    cases b with
    | nil => simp [charsLe] at hab
    | cons y ys =>
      cases c with
      | nil => simp [charsLe] at hbc
      | cons z zs =>
        rcases Nat.lt_trichotomy x.toNat y.toNat with hxy | hxy | hxy <;>
          rcases Nat.lt_trichotomy y.toNat z.toNat with hyz | hyz | hyz
        all_goals
          simp only [charsLe] at hab hbc ⊢
          split_ifs at hab hbc ⊢ <;>
            first
              | rfl
              | omega
              | exact ih hab hbc

theorem charsLe_antisymm {a b : List Char} (hab : charsLe a b = true)
    (hba : charsLe b a = true) : a = b := by
  induction a generalizing b with
  | nil =>
    cases b with
    | nil => rfl
    | cons y ys => simp [charsLe] at hba
  | cons x xs ih =>
    cases b with
    | nil => simp [charsLe] at hab
    | cons y ys =>
      rcases Nat.lt_trichotomy x.toNat y.toNat with h | h | h
      · have h2 : ¬ y.toNat < x.toNat := by omega
        simp only [charsLe, if_neg h2, if_pos h] at hba
        simp at hba
      · have hx : x = y := Char.eq_of_val_eq (UInt32.ext h)
        subst hx
        have h1 : ¬ x.toNat < x.toNat := by omega
        simp only [charsLe, if_neg h1] at hab hba
        rw [ih hab hba]
      · have h2 : ¬ x.toNat < y.toNat := by omega
        simp only [charsLe, if_neg h2, if_pos h] at hab
        simp at hab

instance : IsTotal String strLe :=
  ⟨fun a b => charsLe_total a.data b.data⟩

instance : IsTrans String strLe :=
  ⟨fun _ _ _ hab hbc => charsLe_trans hab hbc⟩

theorem strLe_antisymm {a b : String} (hab : strLe a b) (hba : strLe b a) : a = b := by
  obtain ⟨da⟩ := a
  obtain ⟨db⟩ := b
  have : da = db := charsLe_antisymm hab hba
  rw [this]

/-! ### Counting and grouping lemmas -/

theorem mkRat_eq_cast_div (n : ℤ) (d : ℕ) : mkRat n d = (n : ℚ) / (d : ℚ) := by
  rw [Rat.mkRat_eq_divInt, Rat.divInt_eq_div]
  norm_num

theorem countPlay_eq_count (log : List TaggedEvent) (p : String) :
    countPlay log p = (log.map (·.play)).count p := by
  unfold countPlay
  rw [List.count_eq_countP, List.countP_map, ← List.countP_eq_length_filter]
  rfl

theorem total_attempts_eq_length (log : List TaggedEvent) :
    total_attempts log = log.length := by
  unfold total_attempts groupKeys
  rw [((List.perm_insertionSort strLe (log.map (·.play)).dedup).map
    (countPlay log)).sum_eq]
  have hc : countPlay log = fun p => (log.map (·.play)).count p :=
    funext (countPlay_eq_count log)
  rw [hc, List.sum_map_count_dedup_eq_length, List.length_map]

theorem mem_groupKeys {log : List TaggedEvent} {p : String} :
    p ∈ groupKeys log ↔ ∃ e ∈ log, e.play = p := by
  simp [groupKeys, List.mem_dedup]

theorem nodup_groupKeys (log : List TaggedEvent) : (groupKeys log).Nodup :=
  ((List.perm_insertionSort strLe _).nodup_iff).mpr (List.nodup_dedup _)

theorem sorted_groupKeys (log : List TaggedEvent) : (groupKeys log).Sorted strLe :=
  List.sorted_insertionSort strLe _

theorem groupKeys_pairwise_lt (log : List TaggedEvent) :
    (groupKeys log).Pairwise strLt :=
  (sorted_groupKeys log).imp₂ (fun _ _ hle hne => ⟨hle, hne⟩) (nodup_groupKeys log)

/-! ### The final sort: totality, transitivity, stability -/

instance : IsTotal PlayMetric rowLe :=
  ⟨fun a b => by
    unfold rowLe
    rcases lt_trichotomy a.ppp b.ppp with h | h | h
    · right; left; exact h
    · rcases Nat.lt_trichotomy a.attempts b.attempts with h2 | h2 | h2
      · right; right; exact ⟨h.symm, Or.inl h2⟩
      · left; right; exact ⟨h, Or.inr h2⟩
      · left; right; exact ⟨h, Or.inl h2⟩
    · left; left; exact h⟩

instance : IsTrans PlayMetric rowLe :=
  ⟨fun a b c hab hbc => by
    unfold rowLe at hab hbc ⊢
    rcases hab with h1 | h1 <;> rcases hbc with h2 | h2
    · left; exact lt_trans h2 h1
    · left; exact h2.1 ▸ h1
    · left; rw [h1.1]; exact h2
    · right
      refine ⟨h1.1.trans h2.1, ?_⟩
      rcases h1.2 with h | h <;> rcases h2.2 with h' | h' <;> omega⟩

theorem pairwise_orderedInsert {α : Type} (r : α → α → Prop) [DecidableRel r]
    (q : α → α → Prop) (hrq : ∀ x y, ¬ r x y → q y x) (a : α) :
    ∀ l : List α, l.Pairwise q → (∀ b ∈ l, q a b) →
      (l.orderedInsert r a).Pairwise q
  | [], _, _ => by simp
  | y :: ys, hp, ha => by
    rw [List.orderedInsert]
    split_ifs with h
    · exact List.pairwise_cons.mpr ⟨ha, hp⟩
    · rcases List.pairwise_cons.mp hp with ⟨hy, hys⟩
      refine List.pairwise_cons.mpr ⟨?_, pairwise_orderedInsert r q hrq a ys hys
        (fun b hb => ha b (List.mem_cons_of_mem _ hb))⟩
      intro b hb
      rcases (List.mem_orderedInsert r).mp hb with hba | hb'
      · rw [hba]; exact hrq a y h
      · exact hy b hb'

theorem pairwise_insertionSort {α : Type} (r : α → α → Prop) [DecidableRel r]
    (q : α → α → Prop) (hrq : ∀ x y, ¬ r x y → q y x) :
    ∀ l : List α, l.Pairwise q → (l.insertionSort r).Pairwise q
  | [], _ => by simp
  | x :: xs, hp => by
    rw [List.insertionSort]
    rcases List.pairwise_cons.mp hp with ⟨hx, hxs⟩
    exact pairwise_orderedInsert r q hrq x _ (pairwise_insertionSort r q hrq xs hxs)
      (fun b hb => hx b ((List.mem_insertionSort r).mp hb))

theorem compute_metrics_perm (log : List TaggedEvent) :
    List.Perm (compute_metrics log) ((groupKeys log).map (metricRow log)) := by
  unfold compute_metrics
  split_ifs with h
  · have : log = [] := List.isEmpty_iff.mp h
    subst this
    exact List.Perm.nil
  · exact List.perm_insertionSort rowLe _

/-! ### Concrete inputs for scenarios and witnesses -/

/-- A minimal event, as `add_log` would build it for the given play/result. -/
def mkEv (p r : String) : TaggedEvent :=
  { timestamp := "", opponent := "", game_date := "", quarter := "",
    player := none, play := p, result := r, points := points_from_result r }

/-- A session state with the given log, for concrete scenarios. -/
def testState (log : List TaggedEvent) : SessionState :=
  { opponent := "X", game_date := "2024-11-01", quarter := "1",
    selected_player := none, log := log }

/-! ### Claim theorems -/

/-- C9: `compute` applied to the empty event list returns an empty sequence
of rows, not an error. -/
theorem compute_metrics_nil : compute_metrics [] = [] := rfl

/-- C7: for every log state and every event appended via `add_log`,
undoing afterwards restores the session state exactly — the whole state,
and in particular the log's length and content. -/
theorem undo_last_add_log (s : SessionState) (now play result : String) :
    (undo_last (add_log s now play result)).1 = s ∧
    (undo_last (add_log s now play result)).1.log.length = s.log.length := by
  have h1 : (undo_last (add_log s now play result)).1 = s := by
    unfold undo_last add_log
    simp
  exact ⟨h1, by rw [h1]⟩

/-- C8: `undo_last` on an empty log is a no-op: it returns no event, performs
no mutation (the log stays at length 0), raises nothing, and reports
"No tags to undo." to the caller. -/
theorem undo_last_empty (s : SessionState) (h : s.log = []) :
    undo_last s = (s, none, "No tags to undo.") ∧
    (undo_last s).1.log.length = 0 := by
  constructor
  · unfold undo_last
    rw [h]
    rfl
  · unfold undo_last
    rw [h]
    simp [h]

theorem undo_last_empty_witness :
    (testState []).log = [] ∧
    (undo_last (testState []) = (testState [], none, "No tags to undo.") ∧
      (undo_last (testState [])).1.log.length = 0) :=
  ⟨rfl, undo_last_empty (testState []) rfl⟩

/-- C3: `append` with an explicit timestamp stores that timestamp verbatim in
the appended event; with no explicit timestamp it stores the current time.
(The explicit-timestamp variant of append is modelled from the spec, see
`append_event`; the `src/` variant `add_log` only ever uses current time.) -/
theorem append_event_timestamp (s : SessionState) (now play result ts : String) :
    ((append_event s now play result (some ts)).log.getLast?).map (·.timestamp) =
      some ts ∧
    ((append_event s now play result none).log.getLast?).map (·.timestamp) =
      some now ∧
    ((add_log s now play result).log.getLast?).map (·.timestamp) = some now := by
  unfold append_event add_log
  rw [List.getLast?_concat, List.getLast?_concat, List.getLast?_concat]
  exact ⟨rfl, rfl, rfl⟩

/-- C1: on the three-event log PickAndRoll/Made 2, PickAndRoll/Missed 3,
Isolation/Foul, `compute_metrics` returns exactly the two claimed rows,
PickAndRoll first: attempts 2, points 2, PPP 1, frequency 2/3, success
rate 1/2; then Isolation: attempts 1, points 0, PPP 0, frequency 1/3,
success rate 0. -/
theorem compute_metrics_scenario :
    compute_metrics
      [mkEv "PickAndRoll" "Made 2", mkEv "PickAndRoll" "Missed 3",
       mkEv "Isolation" "Foul"] =
      [{ play := "PickAndRoll", attempts := 2, points := 2, ppp := 1,
         frequency := 2/3, success_rate := 1/2 },
       { play := "Isolation", attempts := 1, points := 0, ppp := 0,
         frequency := 1/3, success_rate := 0 }] := by
  have h23 : (2 : ℚ)/3 = mkRat 2 3 := by rw [Rat.mkRat_eq_div]; norm_num
  have h12 : (1 : ℚ)/2 = mkRat 1 2 := by rw [Rat.mkRat_eq_div]; norm_num
  have h13 : (1 : ℚ)/3 = mkRat 1 3 := by rw [Rat.mkRat_eq_div]; norm_num
  rw [h23, h12, h13]
  decide

/-- C2, counterexample: in the log [B/Foul, A/Foul] the two plays tie on PPP
and attempts and B is seen first, yet `compute_metrics` orders A before B
(the groupby key order is lexicographic, not first-seen), refuting the
claimed first-seen tie-breaking. -/
theorem compute_metrics_tie_counterexample :
    (compute_metrics [mkEv "B" "Foul", mkEv "A" "Foul"]).map (·.ppp) = [0, 0] ∧
    (compute_metrics [mkEv "B" "Foul", mkEv "A" "Foul"]).map (·.attempts) = [1, 1] ∧
    (compute_metrics [mkEv "B" "Foul", mkEv "A" "Foul"]).map (·.play) = ["A", "B"] ∧
    (compute_metrics [mkEv "B" "Foul", mkEv "A" "Foul"]).map (·.play) ≠ ["B", "A"] := by
  refine ⟨?_, ?_, ?_, ?_⟩ <;> decide

/-- C2, amended: the rows of `compute_metrics` are always sorted descending
by PPP, ties broken descending by attempts, and any remaining ties appear in
ascending code-point order of the play label (the lexicographically sorted
groupby key order) — not in first-seen order. The output is a pure function
of the input, hence deterministic across repeated calls. -/
theorem compute_metrics_sorted (log : List TaggedEvent) :
    (compute_metrics log).Pairwise (fun a b =>
      b.ppp < a.ppp ∨ (a.ppp = b.ppp ∧ (b.attempts < a.attempts ∨
        (a.attempts = b.attempts ∧ strLt a.play b.play)))) := by
  have hrows : ((groupKeys log).map (metricRow log)).Pairwise
      (fun a b => strLt a.play b.play) := by
    rw [List.pairwise_map]
    exact groupKeys_pairwise_lt log
  have hq : ((groupKeys log).map (metricRow log)).Pairwise
      (fun a b => (a.ppp = b.ppp ∧ a.attempts = b.attempts) → strLt a.play b.play) := by
    refine hrows.imp ?_
    intro a b hab _
    exact hab
  have hrq : ∀ x y : PlayMetric, ¬ rowLe x y →
      ((y.ppp = x.ppp ∧ y.attempts = x.attempts) → strLt y.play x.play) :=
    fun x y hn tie => absurd (Or.inr ⟨tie.1.symm, Or.inr tie.2.symm⟩) hn
  unfold compute_metrics
  split_ifs with h
  · exact List.Pairwise.nil
  · have h1 := List.sorted_insertionSort rowLe ((groupKeys log).map (metricRow log))
    have h2 := pairwise_insertionSort rowLe _ hrq _ hq
    refine (h1.and h2).imp ?_
    rintro a b ⟨hle, hq'⟩
    rcases hle with hlt | ⟨heq, hatt⟩
    · exact Or.inl hlt
    · refine Or.inr ⟨heq, ?_⟩
      rcases hatt with hlt | heq'
      · exact Or.inl hlt
      · exact Or.inr ⟨heq', hq' ⟨heq, heq'⟩⟩

/-- The attempts of the rows of `compute_metrics` always sum to the length
of the input log. -/
theorem sum_attempts_eq_length (log : List TaggedEvent) :
    ((compute_metrics log).map (·.attempts)).sum = log.length := by
  rw [((compute_metrics_perm log).map (·.attempts)).sum_eq, List.map_map]
  rw [show ((fun m : PlayMetric => m.attempts) ∘ metricRow log) = countPlay log
    from rfl]
  exact total_attempts_eq_length log

/-- C4: for every non-empty event list, the attempts over all rows returned
by `compute_metrics` sum to the length of the input list. -/
theorem compute_metrics_attempts_sum (log : List TaggedEvent) (_h : log ≠ []) :
    ((compute_metrics log).map (·.attempts)).sum = log.length :=
  sum_attempts_eq_length log

theorem compute_metrics_attempts_sum_witness :
    [mkEv "A" "Made 2", mkEv "B" "Foul"] ≠ ([] : List TaggedEvent) ∧
    ((compute_metrics [mkEv "A" "Made 2", mkEv "B" "Foul"]).map (·.attempts)).sum =
      ([mkEv "A" "Made 2", mkEv "B" "Foul"] : List TaggedEvent).length :=
  ⟨by decide, compute_metrics_attempts_sum _ (by decide)⟩

/-- C10: for every non-empty event list the guarded frequency denominator is
the (nonzero) grand total of attempts, each row's frequency is its attempts
divided by that total as an exact rational, and the frequencies over all rows
sum to exactly 1. -/
theorem compute_metrics_frequency_sum (log : List TaggedEvent) (h : log ≠ []) :
    total_attempts log ≠ 0 ∧
    (if total_attempts log = 0 then 1 else total_attempts log) = total_attempts log ∧
    (∀ m ∈ compute_metrics log, m.frequency = mkRat m.attempts (total_attempts log)) ∧
    ((compute_metrics log).map (·.frequency)).sum = 1 := by
  have hT0 : total_attempts log ≠ 0 := by
    rw [total_attempts_eq_length]
    simpa using h
  refine ⟨hT0, if_neg hT0, ?_, ?_⟩
  · intro m hm
    have hm' : m ∈ (groupKeys log).map (metricRow log) :=
      (compute_metrics_perm log).mem_iff.mp hm
    rcases List.mem_map.mp hm' with ⟨p, _, rfl⟩
    show mkRat (countPlay log p)
      (if total_attempts log = 0 then 1 else total_attempts log) = _
    rw [if_neg hT0]
    rfl
  · rw [((compute_metrics_perm log).map (·.frequency)).sum_eq, List.map_map]
    have hfreq : ((fun m : PlayMetric => m.frequency) ∘ metricRow log) =
        fun p => (countPlay log p : ℚ) * ((total_attempts log : ℚ))⁻¹ := by
      funext p
      show mkRat (countPlay log p)
        (if total_attempts log = 0 then 1 else total_attempts log) = _
      rw [if_neg hT0, mkRat_eq_cast_div, div_eq_mul_inv]
      push_cast
      ring
    rw [hfreq, List.sum_map_mul_right]
    have hcast : ((groupKeys log).map (fun p => ((countPlay log p : ℕ) : ℚ))).sum =
        ((total_attempts log : ℕ) : ℚ) := by
      unfold total_attempts
      rw [Nat.cast_list_sum, List.map_map]
      rfl
    rw [hcast, mul_inv_cancel₀ (Nat.cast_ne_zero.mpr hT0)]

theorem compute_metrics_frequency_sum_witness :
    [mkEv "A" "Made 2", mkEv "B" "Foul", mkEv "A" "Foul"] ≠ ([] : List TaggedEvent) ∧
    (total_attempts [mkEv "A" "Made 2", mkEv "B" "Foul", mkEv "A" "Foul"] ≠ 0 ∧
      (if total_attempts [mkEv "A" "Made 2", mkEv "B" "Foul", mkEv "A" "Foul"] = 0
        then 1 else total_attempts [mkEv "A" "Made 2", mkEv "B" "Foul", mkEv "A" "Foul"]) =
        total_attempts [mkEv "A" "Made 2", mkEv "B" "Foul", mkEv "A" "Foul"] ∧
      (∀ m ∈ compute_metrics [mkEv "A" "Made 2", mkEv "B" "Foul", mkEv "A" "Foul"],
        m.frequency = mkRat m.attempts
          (total_attempts [mkEv "A" "Made 2", mkEv "B" "Foul", mkEv "A" "Foul"])) ∧
      ((compute_metrics [mkEv "A" "Made 2", mkEv "B" "Foul", mkEv "A" "Foul"]).map
        (·.frequency)).sum = 1) :=
  ⟨by decide, compute_metrics_frequency_sum _ (by decide)⟩

/-- C5: an event whose result is outside the five-value enumeration never
aborts anything: it scores 0 points, still counts toward its play's attempts
and toward the grand total of attempts (the frequency denominator), and is
excluded from both the made-shot and the shot-attempt counts that feed the
success rate. -/
theorem add_log_unknown_result (s : SessionState) (now play r : String)
    (h : r ∉ ["Made 2", "Made 3", "Missed 2", "Missed 3", "Foul"]) :
    points_from_result r = 0 ∧
    countPlay (add_log s now play r).log play = countPlay s.log play + 1 ∧
    total_attempts (add_log s now play r).log = total_attempts s.log + 1 ∧
    pointsPlay (add_log s now play r).log play = pointsPlay s.log play ∧
    (∀ p, madeCount (add_log s now play r).log p = madeCount s.log p) ∧
    (∀ p, shotCount (add_log s now play r).log p = shotCount s.log p) := by
  simp only [List.mem_cons, List.not_mem_nil, or_false, not_or] at h
  obtain ⟨h1, h2, h3, h4, h5⟩ := h
  have b1 : (r == "Made 2") = false := beq_eq_false_iff_ne.mpr h1
  have b2 : (r == "Made 3") = false := beq_eq_false_iff_ne.mpr h2
  have b3 : (r == "Missed 2") = false := beq_eq_false_iff_ne.mpr h3
  have b4 : (r == "Missed 3") = false := beq_eq_false_iff_ne.mpr h4
  have hp0 : points_from_result r = 0 := by
    unfold points_from_result
    rw [if_neg h1, if_neg h2, if_neg h3, if_neg h4, if_neg h5]
  refine ⟨hp0, ?_, ?_, ?_, ?_, ?_⟩
  · unfold add_log countPlay
    rw [List.filter_append, List.length_append]
    simp
  · rw [total_attempts_eq_length, total_attempts_eq_length]
    unfold add_log
    simp
  · unfold add_log pointsPlay
    rw [List.filter_append, List.map_append, List.sum_append]
    simp [hp0]
  · intro p
    unfold add_log madeCount
    rw [List.filter_append]
    simp [b1, b2]
  · intro p
    unfold add_log shotCount
    rw [List.filter_append]
    simp [b1, b2, b3, b4]

theorem add_log_unknown_result_witness :
    ("Turnover" : String) ∉ ["Made 2", "Made 3", "Missed 2", "Missed 3", "Foul"] ∧
    (points_from_result "Turnover" = 0 ∧
      countPlay (add_log (testState []) "t0" "Iso" "Turnover").log "Iso" =
        countPlay (testState []).log "Iso" + 1 ∧
      total_attempts (add_log (testState []) "t0" "Iso" "Turnover").log =
        total_attempts (testState []).log + 1 ∧
      pointsPlay (add_log (testState []) "t0" "Iso" "Turnover").log "Iso" =
        pointsPlay (testState []).log "Iso" ∧
      (∀ p, madeCount (add_log (testState []) "t0" "Iso" "Turnover").log p =
        madeCount (testState []).log p) ∧
      (∀ p, shotCount (add_log (testState []) "t0" "Iso" "Turnover").log p =
        shotCount (testState []).log p)) :=
  ⟨by decide, add_log_unknown_result (testState []) "t0" "Iso" "Turnover" (by decide)⟩

/-- C6: if all of a play's events are fouls (and event points are, as
`add_log` guarantees, derived from the result), the row `compute_metrics`
returns for that play has positive attempts, 0 points, PPP exactly 0 and
success rate exactly 0 — defined values, no division by zero. -/
theorem compute_metrics_all_foul (log : List TaggedEvent) (p : String)
    (hwf : ∀ e ∈ log, e.points = points_from_result e.result)
    (hex : ∃ e ∈ log, e.play = p)
    (hfoul : ∀ e ∈ log, e.play = p → e.result = "Foul") :
    ∃ m ∈ compute_metrics log, m.play = p ∧ 0 < m.attempts ∧ m.points = 0 ∧
      m.ppp = 0 ∧ m.success_rate = 0 := by
  have hpts : pointsPlay log p = 0 := by
    unfold pointsPlay
    apply List.sum_eq_zero
    intro x hx
    rcases List.mem_map.mp hx with ⟨e, he, rfl⟩
    rcases List.mem_filter.mp he with ⟨hel, hpe⟩
    have hpp : e.play = p := by simpa using hpe
    rw [hwf e hel, hfoul e hel hpp]
    decide
  have hshot : shotCount log p = 0 := by
    unfold shotCount
    rw [List.length_eq_zero, List.filter_eq_nil_iff]
    intro e he hpe
    rcases List.mem_filter.mp he with ⟨hel, hmask⟩
    have hpp : e.play = p := by simpa using hpe
    rw [hfoul e hel hpp] at hmask
    simp at hmask
  have hcnt : 0 < countPlay log p := by
    unfold countPlay
    rcases hex with ⟨e, he, hep⟩
    exact List.length_pos_of_mem (List.mem_filter.mpr ⟨he, by simp [hep]⟩)
  refine ⟨metricRow log p, ?_, rfl, hcnt, hpts, ?_, ?_⟩
  · exact (compute_metrics_perm log).mem_iff.mpr (List.mem_map_of_mem _
      (mem_groupKeys.mpr hex))
  · show mkRat (pointsPlay log p) (countPlay log p) = 0
    rw [hpts, mkRat_eq_cast_div]
    simp
  · show success_rate log p = 0
    unfold success_rate
    rw [if_pos hshot]

theorem compute_metrics_all_foul_witness :
    (∀ e ∈ [mkEv "Iso" "Foul"], e.points = points_from_result e.result) ∧
    (∃ e ∈ [mkEv "Iso" "Foul"], e.play = "Iso") ∧
    (∀ e ∈ [mkEv "Iso" "Foul"], e.play = "Iso" → e.result = "Foul") ∧
    (∃ m ∈ compute_metrics [mkEv "Iso" "Foul"], m.play = "Iso" ∧
      0 < m.attempts ∧ m.points = 0 ∧ m.ppp = 0 ∧ m.success_rate = 0) :=
  ⟨by decide, by decide, by decide,
    compute_metrics_all_foul [mkEv "Iso" "Foul"] "Iso"
      (by decide) (by decide) (by decide)⟩
